import Mathlib

/-!
Verification of the PetMeds dose-event generation and reminder engine.

The engine lives in the backend service layer (medication scheduler,
push-notification dispatch, agenda/medication routes) over a PostgreSQL
store.  We shallowly embed it here:

* Timestamps.  All JavaScript `Date` values handled by the scheduler are
  whole minutes (`times_of_day` is `HH:MM`, all millisecond arithmetic is a
  multiple of 60000).  A `Date` is modelled by its civil decomposition
  `DT` (proleptic Gregorian year/month/day plus minute-of-day), with
  `DT.toMin` giving the absolute minutes since 1970-01-01T00:00 that JS
  `getTime()` (divided by 60000) would return.  The server clock is taken
  to be a fixed-offset timezone (no DST), so `setDate`/`setHours` move by
  exact elapsed time, matching a UTC deployment (new users are created
  with timezone 'UTC').

* The database is modelled as in-memory lists of rows; SQL queries of the
  scheduler and the routes become list filters/folds in row order.  The
  access-control joins (household membership, access expiry) are outside
  the engine and are dropped: we model the authorized path.

* `createDoseEventIfNotExists` performs SELECT-then-INSERT; we model the
  sequential semantics.  Row ids are UUIDs in the store; inserted rows get
  the placeholder id 0 (no claim depends on ids of inserted rows).
-/

namespace PetMeds

/-- Proleptic Gregorian leap-year test (divisible by 4 and not by 100, or
divisible by 400), as used by JavaScript `Date` and PostgreSQL. -/
def isLeap (y : Int) : Bool :=
  (y % 4 == 0 && y % 100 != 0) || y % 400 == 0

/-- Length in days of month `m` (1-12) of year `y`. -/
def monthLen (y : Int) (m : Nat) : Nat :=
  if m = 2 then (if isLeap y then 29 else 28)
  else if m = 4 ∨ m = 6 ∨ m = 9 ∨ m = 11 then 30
  else 31

/-- Days in months `1..n` of year `y` (cumulative month lengths). -/
def monthsDays (y : Int) : Nat → Int
  | 0 => 0
  | n + 1 => monthsDays y n + monthLen y (n + 1)

/-- Days before month `m` (1-12) within year `y`. -/
def daysBeforeMonth (y : Int) (m : Nat) : Int :=
  monthsDays y (m - 1)

/-- Linear-plus-leap-count day total used to anchor years: the number of
days in years `1..y` of the proleptic Gregorian calendar (for `y ≥ 0`),
extended to all `y` by floor division. -/
def daysToYear (y : Int) : Int :=
  365 * y + y / 4 - y / 100 + y / 400

/-- Civil timestamp: the decomposition of a (minute-precision) JS `Date`
into calendar fields in the server timezone. -/
structure DT where
  year : Int
  month : Nat
  day : Nat
  minuteOfDay : Nat
deriving DecidableEq, Repr

/-- A `DT` is valid when its fields denote an actual calendar instant. -/
def DT.Valid (c : DT) : Prop :=
  1 ≤ c.month ∧ c.month ≤ 12 ∧ 1 ≤ c.day ∧ c.day ≤ monthLen c.year c.month ∧
    c.minuteOfDay < 1440

instance (c : DT) : Decidable c.Valid := by
  unfold DT.Valid; infer_instance

/-- Day number of the civil date: days since 1970-01-01 (negative before). -/
def DT.toDays (c : DT) : Int :=
  daysToYear (c.year - 1) + daysBeforeMonth c.year c.month + (c.day - 1) -
    daysToYear 1969

/-- Absolute minutes since 1970-01-01T00:00, i.e. JS `getTime() / 60000`. -/
def DT.toMin (c : DT) : Int :=
  1440 * c.toDays + c.minuteOfDay

/-- Successor day with month/year rollover. -/
def DT.nextDay (c : DT) : DT :=
  if c.day < monthLen c.year c.month then ⟨c.year, c.month, c.day + 1, c.minuteOfDay⟩
  else if c.month < 12 then ⟨c.year, c.month + 1, 1, c.minuteOfDay⟩
  else ⟨c.year + 1, 1, 1, c.minuteOfDay⟩

/-- Advance `n` days; models JS `setDate(getDate() + n)` for `n ≥ 0`. -/
def DT.addDays (c : DT) : Nat → DT
  | 0 => c
  | n + 1 => c.nextDay.addDays n

/-- Minute-precision absolute-time addition; models JS
`new Date(getTime() + q * 60 * 1000)` for a nonnegative number of minutes. -/
def DT.addMinutes (c : DT) (q : Nat) : DT :=
  DT.addDays ⟨c.year, c.month, c.day, (c.minuteOfDay + q) % 1440⟩
    ((c.minuteOfDay + q) / 1440)

/-- Replace the time of day, keeping the calendar date; models JS
`setHours(h, m, 0, 0)` (at minute precision). -/
def DT.jsSetHours (c : DT) (h mi : Nat) : DT :=
  ⟨c.year, c.month, c.day, 60 * h + mi⟩

/-- Month index on the time line: `12 * year + (month - 1)`. -/
def monthIdx (y : Int) (m : Nat) : Int :=
  12 * y + ((m : Int) - 1)

/-- First day of the month with index `i`, at time of day `tod`. -/
def firstOf (i : Int) (tod : Nat) : DT :=
  ⟨i / 12, (i % 12).toNat + 1, 1, tod⟩

/-- Calendar month addition as JS `setMonth(getMonth() + q)` performs it:
the target year/month keep the original day-of-month, and a day number
beyond the target month's length spills into the following month (it is a
plain day offset from the first of the target month). -/
def DT.jsAddMonths (c : DT) (q : Nat) : DT :=
  DT.addDays (firstOf (monthIdx c.year c.month + q) c.minuteOfDay) (c.day - 1)

/-- Day-of-week as JS `getDay()` returns it: 0 = Sunday .. 6 = Saturday
(1970-01-01 was a Thursday, hence the offset 4). -/
def DT.getDayJS (c : DT) : Int :=
  (c.toDays + 4) % 7

/-- The scheduler's weekday adjustment
`dayOfWeek === 0 ? 6 : dayOfWeek - 1`, converting to 0 = Monday .. 6 = Sunday. -/
def adjWeekday (c : DT) : Int :=
  if c.getDayJS = 0 then 6 else c.getDayJS - 1

/-- Schedule interval units (`schedule_unit` enum of the database). -/
inductive IntervalUnit
  | minutes
  | hours
  | days
  | weeks
  | months
deriving DecidableEq, Repr

/-- One step of the interval-mode loop of `generateIntervalDoseEvents`:
minutes/hours via exact millisecond arithmetic, days/weeks via
`setDate(getDate() + n)`, months via `setMonth(getMonth() + n)`. -/
def intervalStep (q : Nat) (u : IntervalUnit) (c : DT) : DT :=
  match u with
  | .minutes => c.addMinutes q
  | .hours => c.addMinutes (60 * q)
  | .days => c.addDays q
  | .weeks => c.addDays (7 * q)
  | .months => c.jsAddMonths q

/-- Loop body of `generateIntervalDoseEvents`: emit the current time while
it does not exceed `endT`, then step.  The recursion is bounded by `fuel`
(the source loop runs until the running date passes the window end). -/
def genIntervalAux (q : Nat) (u : IntervalUnit) (endT : Int) : Nat → DT → List Int
  | 0, _ => []
  | fuel + 1, c =>
    if c.toMin ≤ endT then c.toMin :: genIntervalAux q u endT fuel (intervalStep q u c)
    else []

/-- The per-day emissions of `generateFixedTimeDoseEvents`: one candidate
per `times_of_day` entry (`HH:MM`, hence a pair of numbers), kept when it
lies within `[startT, endT]`. -/
def dayEmits (times : List (Nat × Nat)) (startT endT : Int) (c : DT) : List Int :=
  times.filterMap (fun tm =>
    let dt := (c.jsSetHours tm.1 tm.2).toMin
    if startT ≤ dt ∧ dt ≤ endT then some dt else none)

/-- The `byweekday` skip test of `generateFixedTimeDoseEvents`: a day is
skipped when the filter is present, non-empty, and does not contain the
day's adjusted weekday. -/
def skipDay (bw : Option (List Int)) (c : DT) : Bool :=
  match bw with
  | some ws => !ws.isEmpty && !ws.contains (adjWeekday c)
  | none => false

/-- Loop of `generateFixedTimeDoseEvents`: iterate calendar days while the
running date does not exceed `endT`; skip filtered weekdays wholesale,
otherwise emit each listed time of day that falls within the window. -/
def genFixedAux (times : List (Nat × Nat)) (startT endT : Int)
    (bw : Option (List Int)) : Nat → DT → List Int
  | 0, _ => []
  | fuel + 1, c =>
    if c.toMin ≤ endT then
      (if skipDay bw c then [] else dayEmits times startT endT c) ++
        genFixedAux times startT endT bw fuel (c.addDays 1)
    else []

/-- A `medications` row, restricted to the columns the engine reads.
`startDate`/`endDate` are `DATE` columns, parsed by JS at midnight. -/
structure Medication where
  id : Nat
  intervalQty : Nat
  intervalUnit : IntervalUnit
  timesOfDay : Option (List (Nat × Nat))
  byweekday : Option (List Int)
  prn : Bool
  active : Bool
  startDate : DT
  endDate : Option DT
deriving DecidableEq, Repr

/-- The guard of `generateDoseEventsForMedication`: the medication is
skipped entirely when its start lies past the window end or its bounded
end lies before the window start. -/
def medOutsidePeriod (med : Medication) (ws we : DT) : Bool :=
  decide (med.startDate.toMin > we.toMin) ||
    (match med.endDate with
     | some e => decide (e.toMin < ws.toMin)
     | none => false)

/-- `generationStartDate = medStartDate > startDate ? medStartDate : startDate`. -/
def generationStart (med : Medication) (ws : DT) : DT :=
  if med.startDate.toMin > ws.toMin then med.startDate else ws

/-- Occurrence generation of `generateDoseEventsForMedication`: fixed-time
mode when `times_of_day` is present and non-empty, interval mode
otherwise.  The source interleaves emission with insertion
(`createDoseEventIfNotExists` inside the loop); since insertion never
affects the running date, we factor it as generate-then-fold. -/
def generateOccurrences (med : Medication) (ws we : DT) (fuel : Nat) : List Int :=
  if medOutsidePeriod med ws we then []
  else
    match med.timesOfDay with
    | some ts =>
        if ts.length > 0 then
          genFixedAux ts (generationStart med ws).toMin we.toMin med.byweekday
            fuel (generationStart med ws)
        else
          genIntervalAux med.intervalQty med.intervalUnit we.toMin fuel
            (generationStart med ws)
    | none =>
        genIntervalAux med.intervalQty med.intervalUnit we.toMin fuel
          (generationStart med ws)

/-- Status enum of `medication_dose_events`. -/
inductive DoseStatus
  | due
  | taken
  | skipped
deriving DecidableEq, Repr

/-- A `medication_dose_events` row. -/
structure DoseEvent where
  id : Nat
  medicationId : Nat
  scheduledTime : Int
  status : DoseStatus
  takenLogId : Option Nat
deriving DecidableEq, Repr

/-- The existence probe of `createDoseEventIfNotExists`:
`SELECT id FROM medication_dose_events WHERE medication_id = $1 AND scheduled_time = $2`. -/
def existsEvent (s : List DoseEvent) (mid : Nat) (t : Int) : Bool :=
  s.any (fun e => e.medicationId == mid && e.scheduledTime == t)

/-- `createDoseEventIfNotExists`: insert a fresh `due` row unless one with
the same `(medication_id, scheduled_time)` already exists.  Inserted rows
get placeholder id 0 (the store's UUID); no claim depends on it. -/
def createDoseEventIfNotExists (mid : Nat) (t : Int) (s : List DoseEvent) :
    List DoseEvent :=
  if existsEvent s mid t then s else s ++ [⟨0, mid, t, .due, none⟩]

/-- `generateDoseEventsForMedication` against a store: every generated
occurrence is inserted via `createDoseEventIfNotExists`, in order. -/
def materialize (med : Medication) (ws we : DT) (fuel : Nat)
    (s : List DoseEvent) : List DoseEvent :=
  (generateOccurrences med ws we fuel).foldl
    (fun st t => createDoseEventIfNotExists med.id t st) s

/-- The snooze route handler (`POST /:id/snooze` of the agenda routes):
`UPDATE medication_dose_events SET scheduled_time = scheduled_time +
INTERVAL '15 minutes' WHERE id = $1`.  The update is keyed on the row id
alone; the handler contains no condition on `status`. -/
def snoozeDose (s : List DoseEvent) (eid : Nat) : List DoseEvent :=
  s.map (fun e =>
    if e.id = eid then { e with scheduledTime := e.scheduledTime + 15 } else e)

/-- A `medication_log` row, restricted to the columns the engine writes. -/
structure LogEntry where
  id : Nat
  medicationId : Nat
  administrationTime : Int
deriving DecidableEq, Repr

/-- Mutable state touched by the log route: the append-only
`medication_log` table and the dose events. -/
structure LogState where
  logs : List LogEntry
  events : List DoseEvent
deriving DecidableEq, Repr

/-- The log route handler (`POST /:id/log` of the medication routes) on
the authorized path, as PostgreSQL actually executes it.  The
`medication_log` INSERT succeeds and persists (the handler opens no
transaction).  The subsequent dose-event statement `UPDATE
medication_dose_events SET status = 'taken', taken_log_id = $1 WHERE
medication_id = $2 AND scheduled_time::date = $3::date AND status =
'due' LIMIT 1` carries a `LIMIT` clause, which PostgreSQL's UPDATE
grammar does not accept: the statement fails with a syntax error
(SQLSTATE 42601) before touching any row.  The thrown error is not a
`NotFoundError` and has no `statusCode` property, so the catch block
falls through to the 500 response.  The dose events are never
modified and the `taken` transition never happens. -/
def logDose (st : LogState) (mid : Nat) (adminT : Int) (newLogId : Nat) :
    LogState × Nat :=
  (⟨st.logs ++ [⟨newLogId, mid, adminT⟩], st.events⟩, 500)

/-- Read view of the store used by the reminder/overdue sweeps. -/
structure Db where
  medications : List Medication
  doseEvents : List DoseEvent
deriving DecidableEq, Repr

/-- The `m.active = true` join condition of the sweep queries. -/
def medIsActive (db : Db) (mid : Nat) : Bool :=
  db.medications.any (fun m => m.id == mid && m.active)

/-- Row filter of `checkAndSendReminders`: `status = 'due' AND
scheduled_time BETWEEN now AND now + 15 minutes AND m.active = true`. -/
def reminderMatches (db : Db) (now : Int) (e : DoseEvent) : Bool :=
  e.status == .due && decide (now ≤ e.scheduledTime) &&
    decide (e.scheduledTime ≤ now + 15) && medIsActive db e.medicationId

/-- Row filter of `checkAndSendOverdueNotifications`: `status = 'due' AND
scheduled_time < now - 30 minutes AND m.active = true`. -/
def overdueMatches (db : Db) (now : Int) (e : DoseEvent) : Bool :=
  e.status == .due && decide (e.scheduledTime < now - 30) &&
    medIsActive db e.medicationId

/-- A dispatched push notification (the abstract Notifier call with the
arguments the scheduler passes). -/
inductive Notification
  | reminder (eventId : Nat) (scheduledTime : Int)
  | overdue (eventId : Nat) (scheduledTime : Int)
deriving DecidableEq, Repr

/-- `checkAndSendReminders`: one `sendMedicationReminder` per matching
row.  The sweep issues no UPDATE, so the returned store is the input
store unchanged — the source marks nothing. -/
def checkAndSendReminders (db : Db) (now : Int) : Db × List Notification :=
  (db, (db.doseEvents.filter (reminderMatches db now)).map
    (fun e => .reminder e.id e.scheduledTime))

/-- `checkAndSendOverdueNotifications`: one `sendMedicationOverdue` per
matching row; likewise no store mutation. -/
def checkAndSendOverdueNotifications (db : Db) (now : Int) :
    Db × List Notification :=
  (db, (db.doseEvents.filter (overdueMatches db now)).map
    (fun e => .overdue e.id e.scheduledTime))

/-- The daily materialization sweep `generateDoseEvents`: for every
active medication, materialize over `[now, now + 30 days]`. -/
def generateDoseEvents (db : Db) (now : DT) (fuel : Nat) : Db :=
  let evs := (db.medications.filter (fun m => m.active)).foldl
    (fun s m => materialize m now (now.addDays 30) fuel s) db.doseEvents
  { db with doseEvents := evs }

/-- Adjusted weekday (0 = Monday .. 6 = Sunday) of an absolute timestamp,
read off its day number. -/
def adjWeekdayOfMin (t : Int) : Int :=
  if (t / 1440 + 4) % 7 = 0 then 6 else (t / 1440 + 4) % 7 - 1

/-- The uniqueness invariant of `medication_dose_events`:
`UNIQUE (medication_id, scheduled_time)`. -/
def NoDupKeys (s : List DoseEvent) : Prop :=
  List.Pairwise
    (fun a b => ¬(a.medicationId = b.medicationId ∧ a.scheduledTime = b.scheduledTime)) s

instance (s : List DoseEvent) : Decidable (NoDupKeys s) := by
  unfold NoDupKeys; infer_instance

/-- Absolute minutes of 2024-01-01T08:00 (a Monday) in the server zone. -/
def t0800jan1 : Int :=
  (DT.mk 2024 1 1 480).toMin

/-- Concrete store for the reminder-sweep scenario: one active medication
(id 1) and one `due` dose event (id 10) scheduled 2024-01-01T08:00. -/
def dbC1 : Db :=
  ⟨[⟨1, 8, .hours, none, none, false, true, ⟨2024, 1, 1, 0⟩, none⟩],
    [⟨10, 1, t0800jan1, .due, none⟩]⟩

/-- Concrete daily interval medication whose end date 2024-01-05 lies
inside the materialization window. -/
def medC5 : Medication :=
  ⟨6, 1, .days, none, none, false, true, ⟨2024, 1, 1, 0⟩, some ⟨2024, 1, 5, 0⟩⟩

/-- Concrete as-needed (PRN) medication with fixed times of day. -/
def medC6 : Medication :=
  ⟨7, 1, .hours, some [(8, 0)], none, true, true, ⟨2024, 1, 1, 0⟩, none⟩

/-- Concrete log-route state: one `due` event (id 20) of medication 4
scheduled 2024-01-01T08:00, and an empty medication log. -/
def stC7 : LogState :=
  ⟨[], [⟨20, 4, t0800jan1, .due, none⟩]⟩

/-- Concrete 8-hourly interval medication starting 2023-12-25, used to
exercise window anchoring with a start date before the window. -/
def medC10 : Medication :=
  ⟨9, 8, .hours, none, none, false, true, ⟨2023, 12, 25, 0⟩, none⟩

/-- Concrete fixed-time medication: 08:00 and 20:00 on Mondays,
Wednesdays and Fridays (adjusted weekday filter `{0, 2, 4}`). -/
def medC9 : Medication :=
  ⟨8, 1, .hours, some [(8, 0), (20, 0)], some [0, 2, 4], false, true,
    ⟨2024, 1, 1, 0⟩, none⟩

theorem monthLen_pos (y : Int) (m : Nat) : 0 < monthLen y m := by
  unfold monthLen
  split_ifs <;> omega

theorem monthLen_ge (y : Int) (m : Nat) : 28 ≤ monthLen y m := by
  unfold monthLen
  split_ifs <;> omega

theorem monthLen_le (y : Int) (m : Nat) : monthLen y m ≤ 31 := by
  unfold monthLen
  split_ifs <;> omega

/-- Days in the whole of year `y`: 366 in a leap year, else 365. -/
theorem monthsDays_twelve (y : Int) :
    monthsDays y 12 = if isLeap y then 366 else 365 := by
  simp only [monthsDays, monthLen]
  norm_num
  split_ifs <;> omega

theorem daysToYear_succ (y : Int) :
    daysToYear y = daysToYear (y - 1) + (if isLeap y then 366 else 365) := by
  simp only [daysToYear, isLeap]
  have h4 : (4 : Int) ∣ y ∨ ¬ (4 : Int) ∣ y := em _
  simp only [Bool.or_eq_true, Bool.and_eq_true, beq_iff_eq, bne_iff_ne,
    decide_eq_true_eq]
  split_ifs with h
  · omega
  · omega

theorem DT.valid_nextDay {c : DT} (h : c.Valid) : c.nextDay.Valid := by
  obtain ⟨h1, h2, h3, h4, h5⟩ := h
  unfold DT.nextDay
  split_ifs with hd hm
  · exact ⟨h1, h2, by show 1 ≤ c.day + 1; omega,
      by show c.day + 1 ≤ monthLen c.year c.month; omega, h5⟩
  · exact ⟨by show 1 ≤ c.month + 1; omega, by show c.month + 1 ≤ 12; omega,
      le_refl 1, monthLen_pos _ _, h5⟩
  · exact ⟨le_refl 1, by show (1 : Nat) ≤ 12; omega, le_refl 1, monthLen_pos _ _, h5⟩

theorem DT.toDays_nextDay {c : DT} (h : c.Valid) :
    c.nextDay.toDays = c.toDays + 1 := by
  obtain ⟨h1, h2, h3, h4, h5⟩ := h
  unfold DT.nextDay
  split_ifs with hd hm
  · simp [DT.toDays]
    omega
  · have hday : c.day = monthLen c.year c.month := by omega
    simp only [DT.toDays, daysBeforeMonth]
    have hm1 : c.month - 1 + 1 = c.month := by omega
    have : monthsDays c.year (c.month + 1 - 1) =
        monthsDays c.year (c.month - 1) + monthLen c.year c.month := by
      have : c.month + 1 - 1 = (c.month - 1) + 1 := by omega
      rw [this, monthsDays]
      rw [hm1]
    rw [this]
    omega
  · have hday : c.day = monthLen c.year c.month := by omega
    have hmon : c.month = 12 := by omega
    rw [hmon] at hday
    have hy : daysToYear c.year =
        daysToYear (c.year - 1) + (if isLeap c.year then 366 else 365) :=
      daysToYear_succ c.year
    have hmd : monthsDays c.year 12 = if isLeap c.year then 366 else 365 :=
      monthsDays_twelve c.year
    have hstep : monthsDays c.year 12 =
        monthsDays c.year 11 + (monthLen c.year 12 : Int) := rfl
    have e1 : c.year + 1 - 1 = c.year := by ring
    simp only [DT.toDays, daysBeforeMonth, hmon]
    have h11 : monthsDays c.year (12 - 1) = monthsDays c.year 11 := rfl
    have h00 : monthsDays (c.year + 1) (1 - 1) = 0 := rfl
    rw [e1, h11, h00]
    split_ifs at hy hmd <;> omega

theorem DT.valid_addDays {c : DT} (h : c.Valid) (n : Nat) :
    (c.addDays n).Valid := by
  induction n generalizing c with
  | zero => exact h
  | succ k ih => exact ih (DT.valid_nextDay h)

theorem DT.toDays_addDays {c : DT} (h : c.Valid) (n : Nat) :
    (c.addDays n).toDays = c.toDays + n := by
  induction n generalizing c with
  | zero => simp [DT.addDays]
  | succ k ih =>
    show (c.nextDay.addDays k).toDays = _
    rw [ih (DT.valid_nextDay h), DT.toDays_nextDay h]
    push_cast
    ring

theorem DT.minuteOfDay_nextDay (c : DT) : c.nextDay.minuteOfDay = c.minuteOfDay := by
  unfold DT.nextDay
  split_ifs <;> rfl

theorem DT.minuteOfDay_addDays (c : DT) (n : Nat) :
    (c.addDays n).minuteOfDay = c.minuteOfDay := by
  induction n generalizing c with
  | zero => rfl
  | succ k ih =>
    show (c.nextDay.addDays k).minuteOfDay = _
    rw [ih, DT.minuteOfDay_nextDay]

theorem DT.toMin_addDays {c : DT} (h : c.Valid) (n : Nat) :
    (c.addDays n).toMin = c.toMin + 1440 * n := by
  simp only [DT.toMin, DT.toDays_addDays h, DT.minuteOfDay_addDays]
  ring

theorem DT.valid_addMinutes {c : DT} (h : c.Valid) (q : Nat) :
    (c.addMinutes q).Valid := by
  obtain ⟨h1, h2, h3, h4, h5⟩ := h
  have hv : (DT.mk c.year c.month c.day ((c.minuteOfDay + q) % 1440)).Valid :=
    ⟨h1, h2, h3, h4, by show (c.minuteOfDay + q) % 1440 < 1440; omega⟩
  unfold DT.addMinutes
  exact DT.valid_addDays hv _

theorem DT.toMin_addMinutes {c : DT} (h : c.Valid) (q : Nat) :
    (c.addMinutes q).toMin = c.toMin + q := by
  obtain ⟨h1, h2, h3, h4, h5⟩ := h
  have hv : (DT.mk c.year c.month c.day ((c.minuteOfDay + q) % 1440)).Valid :=
    ⟨h1, h2, h3, h4, by show (c.minuteOfDay + q) % 1440 < 1440; omega⟩
  unfold DT.addMinutes
  rw [DT.toMin_addDays hv]
  simp only [DT.toMin, DT.toDays]
  have := Nat.div_add_mod (c.minuteOfDay + q) 1440
  omega

theorem valid_firstOf (i : Int) {tod : Nat} (h : tod < 1440) :
    (firstOf i tod).Valid := by
  refine ⟨by show 1 ≤ (i % 12).toNat + 1; omega, ?_, le_refl 1, monthLen_pos _ _, h⟩
  show (i % 12).toNat + 1 ≤ 12
  have h0 : 0 ≤ i % 12 := Int.emod_nonneg i (by norm_num)
  have h1 : i % 12 < 12 := Int.emod_lt_of_pos i (by norm_num)
  omega

theorem DT.valid_jsAddMonths {c : DT} (h : c.Valid) (q : Nat) :
    (c.jsAddMonths q).Valid :=
  DT.valid_addDays (valid_firstOf _ h.2.2.2.2) _

theorem firstOf_monthIdx {c : DT} (h : c.Valid) :
    firstOf (monthIdx c.year c.month) c.minuteOfDay =
      ⟨c.year, c.month, 1, c.minuteOfDay⟩ := by
  obtain ⟨h1, h2, _, _, _⟩ := h
  unfold firstOf monthIdx
  have hy : (12 * c.year + ((c.month : Int) - 1)) / 12 = c.year := by omega
  have hm : ((12 * c.year + ((c.month : Int) - 1)) % 12).toNat + 1 = c.month := by
    omega
  rw [hy, hm]

/-- Moving the month index one step forward moves the first-of-month day
number forward by the length of the earlier month. -/
theorem toDays_firstOf_succ (i : Int) (tod : Nat) :
    (firstOf (i + 1) tod).toDays =
      (firstOf i tod).toDays + monthLen (i / 12) ((i % 12).toNat + 1) := by
  have h0 : 0 ≤ i % 12 := Int.emod_nonneg i (by norm_num)
  have h1 : i % 12 < 12 := Int.emod_lt_of_pos i (by norm_num)
  by_cases hlt : i % 12 < 11
  · have hy : (i + 1) / 12 = i / 12 := by omega
    have hm : ((i + 1) % 12).toNat = (i % 12).toNat + 1 := by omega
    simp only [firstOf, DT.toDays, daysBeforeMonth, hy, hm]
    have hk : (i % 12).toNat + 1 + 1 - 1 = ((i % 12).toNat + 1 - 1) + 1 := by omega
    rw [hk]
    have hunfold : monthsDays (i / 12) (((i % 12).toNat + 1 - 1) + 1) =
        monthsDays (i / 12) ((i % 12).toNat + 1 - 1) +
          monthLen (i / 12) ((i % 12).toNat + 1 - 1 + 1) := rfl
    rw [hunfold]
    have : (i % 12).toNat + 1 - 1 + 1 = (i % 12).toNat + 1 := by omega
    rw [this]
    ring
  · have h11 : i % 12 = 11 := by omega
    have hy : (i + 1) / 12 = i / 12 + 1 := by omega
    have hm : (i + 1) % 12 = 0 := by omega
    have hm' : (i % 12).toNat = 11 := by omega
    have hmd : monthsDays (i / 12) 12 = if isLeap (i / 12) then 366 else 365 :=
      monthsDays_twelve (i / 12)
    have hstep : monthsDays (i / 12) 12 =
        monthsDays (i / 12) 11 + (monthLen (i / 12) 12 : Int) := rfl
    have hyd : daysToYear (i / 12) =
        daysToYear (i / 12 - 1) + (if isLeap (i / 12) then 366 else 365) :=
      daysToYear_succ _
    have h00 : monthsDays (i / 12 + 1) 0 = 0 := rfl
    simp only [firstOf, DT.toDays, daysBeforeMonth, hy, hm, hm']
    norm_num
    split_ifs at hmd hyd <;> omega

/-- An event passing the reminder row filter contributes a reminder
notification to the sweep's dispatch list. -/
theorem mem_reminders {db : Db} {now : Int} {e : DoseEvent}
    (he : e ∈ db.doseEvents) (h : reminderMatches db now e = true) :
    Notification.reminder e.id e.scheduledTime ∈ (checkAndSendReminders db now).2 := by
  simp only [checkAndSendReminders]
  exact List.mem_map_of_mem _ (List.mem_filter.mpr ⟨he, h⟩)

/-- An event passing the overdue row filter contributes an overdue
notification to the sweep's dispatch list. -/
theorem mem_overdues {db : Db} {now : Int} {e : DoseEvent}
    (he : e ∈ db.doseEvents) (h : overdueMatches db now e = true) :
    Notification.overdue e.id e.scheduledTime ∈
      (checkAndSendOverdueNotifications db now).2 := by
  simp only [checkAndSendOverdueNotifications]
  exact List.mem_map_of_mem _ (List.mem_filter.mpr ⟨he, h⟩)

/-- C1 counterexample: the reminder sweep run at 2024-01-01T07:50 against
the `due` event scheduled 08:00 dispatches a reminder, performs no store
mutation, and the sweep re-run at 07:55 dispatches a second reminder for
the same event and threshold — the source never marks notified events, so
the claimed at-most-once property fails at this input. -/
theorem C1_counterexample :
    (checkAndSendReminders dbC1 (t0800jan1 - 10)).2 =
        [Notification.reminder 10 t0800jan1] ∧
    (checkAndSendReminders dbC1 (t0800jan1 - 10)).1 = dbC1 ∧
    (checkAndSendReminders dbC1 (t0800jan1 - 5)).2 =
        [Notification.reminder 10 t0800jan1] := by
  refine ⟨by decide, rfl, by decide⟩

/-- C1 (amended): the sweeps keep no notified-flag — a sweep mutates
nothing in the store, and every sweep whose window contains a still-`due`
event of an active medication dispatches a notification for it again, for
both the upcoming-reminder and the overdue threshold. -/
theorem C1_sweeps_redispatch (db : Db) (now1 now2 now3 now4 : Int)
    (e : DoseEvent) (he : e ∈ db.doseEvents) (hdue : e.status = .due)
    (hact : medIsActive db e.medicationId = true)
    (h1l : now1 ≤ e.scheduledTime) (h1r : e.scheduledTime ≤ now1 + 15)
    (h2l : now2 ≤ e.scheduledTime) (h2r : e.scheduledTime ≤ now2 + 15)
    (h3 : e.scheduledTime < now3 - 30) (h4 : e.scheduledTime < now4 - 30) :
    (checkAndSendReminders db now1).1 = db ∧
    (checkAndSendOverdueNotifications db now3).1 = db ∧
    Notification.reminder e.id e.scheduledTime ∈ (checkAndSendReminders db now1).2 ∧
    Notification.reminder e.id e.scheduledTime ∈ (checkAndSendReminders db now2).2 ∧
    Notification.overdue e.id e.scheduledTime ∈
      (checkAndSendOverdueNotifications db now3).2 ∧
    Notification.overdue e.id e.scheduledTime ∈
      (checkAndSendOverdueNotifications db now4).2 := by
  refine ⟨rfl, rfl, mem_reminders he ?_, mem_reminders he ?_,
    mem_overdues he ?_, mem_overdues he ?_⟩ <;>
    simp [reminderMatches, overdueMatches, hdue, hact, h1l, h1r, h2l, h2r, h3, h4]

/-- C1 witness: the amended theorem applied to the concrete 08:00 event
with sweeps at 07:50, 07:55, 08:31 and 08:36. -/
theorem C1_sweeps_redispatch_witness :
    (checkAndSendReminders dbC1 (t0800jan1 - 10)).1 = dbC1 ∧
    (checkAndSendOverdueNotifications dbC1 (t0800jan1 + 31)).1 = dbC1 ∧
    Notification.reminder 10 t0800jan1 ∈
      (checkAndSendReminders dbC1 (t0800jan1 - 10)).2 ∧
    Notification.reminder 10 t0800jan1 ∈
      (checkAndSendReminders dbC1 (t0800jan1 - 5)).2 ∧
    Notification.overdue 10 t0800jan1 ∈
      (checkAndSendOverdueNotifications dbC1 (t0800jan1 + 31)).2 ∧
    Notification.overdue 10 t0800jan1 ∈
      (checkAndSendOverdueNotifications dbC1 (t0800jan1 + 36)).2 :=
  C1_sweeps_redispatch dbC1 (t0800jan1 - 10) (t0800jan1 - 5) (t0800jan1 + 31)
    (t0800jan1 + 36) ⟨10, 1, t0800jan1, .due, none⟩ (by decide) rfl (by decide)
    (by decide) (by decide) (by decide) (by decide) (by decide) (by decide)

/-- C3 counterexample: the snooze handler applied to a `taken` event is
not rejected — it advances the event's `scheduled_time` by 15 minutes
(the handler's UPDATE has no status condition), so the claimed rejection
with an unchanged event fails at this input. -/
theorem C3_counterexample :
    snoozeDose [⟨5, 2, 1000, .taken, some 7⟩] 5 =
        [⟨5, 2, 1015, .taken, some 7⟩] ∧
    snoozeDose [⟨5, 2, 1000, .taken, some 7⟩] 5 ≠
        [⟨5, 2, 1000, .taken, some 7⟩] := by
  decide

/-- C3 (amended): snooze advances the targeted event's `scheduledTime` by
exactly 15 minutes and leaves every other field — including the status —
unchanged, for every status (`due`, `taken`, `skipped`) alike; events with
a different id are untouched.  No status is rejected. -/
theorem C3_snooze_ignores_status (s : List DoseEvent) (e : DoseEvent) (eid : Nat)
    (he : e ∈ s) :
    (e.id = eid →
      { e with scheduledTime := e.scheduledTime + 15 } ∈ snoozeDose s eid) ∧
    (e.id ≠ eid → e ∈ snoozeDose s eid) := by
  constructor
  · intro h
    have hm := List.mem_map_of_mem (fun x => if x.id = eid then
      { x with scheduledTime := x.scheduledTime + 15 } else x) he
    simpa [snoozeDose, h] using hm
  · intro h
    have hm := List.mem_map_of_mem (fun x => if x.id = eid then
      { x with scheduledTime := x.scheduledTime + 15 } else x) he
    simpa [snoozeDose, h] using hm

/-- C3 witness: the amended theorem applied to a concrete `due` event and
a concrete non-targeted event. -/
theorem C3_snooze_ignores_status_witness :
    ((5 : Nat) = 5 →
      (⟨5, 2, 1015, .due, none⟩ : DoseEvent) ∈
        snoozeDose [⟨5, 2, 1000, .due, none⟩] 5) ∧
    ((5 : Nat) ≠ 5 → (⟨5, 2, 1000, .due, none⟩ : DoseEvent) ∈
        snoozeDose [⟨5, 2, 1000, .due, none⟩] 5) :=
  C3_snooze_ignores_status [⟨5, 2, 1000, .due, none⟩]
    ⟨5, 2, 1000, .due, none⟩ 5 (by decide)

set_option maxRecDepth 8000 in
/-- C6 counterexample: `medC6` has `prn = true`, yet the generator emits
occurrences for it (08:00 on 2024-01-01 and 2024-01-02), and the daily
sweep persists dose events for it — the scheduler never reads the `prn`
column, so the claimed empty sequence fails at this input. -/
theorem C6_counterexample :
    medC6.prn = true ∧
    generateOccurrences medC6 ⟨2024, 1, 1, 0⟩ ⟨2024, 1, 3, 0⟩ 10 =
      [t0800jan1, t0800jan1 + 1440] ∧
    (generateDoseEvents ⟨[medC6], []⟩ ⟨2024, 1, 1, 0⟩ 50).doseEvents.length = 30 := by
  refine ⟨rfl, by decide, by decide⟩

/-- C6 (amended): occurrence generation is entirely independent of the
`prn` flag — flipping it changes nothing, so an active PRN medication is
materialized exactly like a non-PRN one. -/
theorem C6_generator_ignores_prn (med : Medication) (b : Bool) (ws we : DT)
    (fuel : Nat) :
    generateOccurrences { med with prn := b } ws we fuel =
      generateOccurrences med ws we fuel := rfl

/-- Advancing the month index never moves the first of the month backwards;
each step advances by at least 28 days. -/
theorem toDays_firstOf_le (i : Int) (tod : Nat) (q : Nat) :
    (firstOf i tod).toDays + 28 * q ≤ (firstOf (i + q) tod).toDays := by
  induction q with
  | zero => simp
  | succ k ih =>
    have hs := toDays_firstOf_succ (i + k) tod
    have hg := monthLen_ge ((i + k) / 12) (((i + k) % 12).toNat + 1)
    have : ((i : Int) + (k + 1 : Nat)) = (i + k) + 1 := by push_cast; ring
    rw [this, hs]
    push_cast at ih ⊢
    omega

theorem valid_intervalStep {c : DT} (h : c.Valid) (q : Nat) (u : IntervalUnit) :
    (intervalStep q u c).Valid := by
  cases u
  · exact DT.valid_addMinutes h q
  · exact DT.valid_addMinutes h _
  · exact DT.valid_addDays h q
  · exact DT.valid_addDays h _
  · exact DT.valid_jsAddMonths h q

theorem toMin_jsAddMonths {c : DT} (h : c.Valid) (q : Nat) :
    (c.jsAddMonths q).toMin =
      (firstOf (monthIdx c.year c.month + q) c.minuteOfDay).toMin +
        1440 * ((c.day : Int) - 1) := by
  unfold DT.jsAddMonths
  rw [DT.toMin_addDays (valid_firstOf _ h.2.2.2.2) _]
  have : ((c.day - 1 : Nat) : Int) = (c.day : Int) - 1 := by
    have := h.2.2.1
    omega
  rw [this]

theorem toDays_day_decomp (c : DT) :
    c.toDays = (DT.mk c.year c.month 1 c.minuteOfDay).toDays + ((c.day : Int) - 1) := by
  simp only [DT.toDays]
  ring

/-- Every unit's interval step moves the running JS date forward (or keeps
it in place when the quantity is zero). -/
theorem toMin_le_intervalStep {c : DT} (h : c.Valid) (q : Nat) (u : IntervalUnit) :
    c.toMin ≤ (intervalStep q u c).toMin := by
  cases u
  · rw [show intervalStep q .minutes c = c.addMinutes q from rfl,
      DT.toMin_addMinutes h q]
    omega
  · rw [show intervalStep q .hours c = c.addMinutes (60 * q) from rfl,
      DT.toMin_addMinutes h _]
    omega
  · rw [show intervalStep q .days c = c.addDays q from rfl, DT.toMin_addDays h q]
    omega
  · rw [show intervalStep q .weeks c = c.addDays (7 * q) from rfl,
      DT.toMin_addDays h _]
    omega
  · rw [show intervalStep q .months c = c.jsAddMonths q from rfl,
      toMin_jsAddMonths h q]
    have h1 := toDays_firstOf_le (monthIdx c.year c.month) c.minuteOfDay q
    rw [firstOf_monthIdx h] at h1
    have h4 := toDays_day_decomp c
    simp only [DT.toMin]
    have hmod : (firstOf (monthIdx c.year c.month + q) c.minuteOfDay).minuteOfDay =
        c.minuteOfDay := rfl
    rw [hmod]
    omega

/-- Every interval-mode emission lies between the running start date and
the window end. -/
theorem genIntervalAux_bounds (q : Nat) (u : IntervalUnit) (endT : Int) :
    ∀ (fuel : Nat) (c : DT), c.Valid →
      ∀ t ∈ genIntervalAux q u endT fuel c, c.toMin ≤ t ∧ t ≤ endT := by
  intro fuel
  induction fuel with
  | zero =>
    intro c _ t ht
    simp [genIntervalAux] at ht
  | succ f ih =>
    intro c hc t ht
    unfold genIntervalAux at ht
    split_ifs at ht with hle
    · rcases List.mem_cons.mp ht with rfl | hmem
      · exact ⟨le_refl _, hle⟩
      · obtain ⟨h1, h2⟩ := ih (intervalStep q u c) (valid_intervalStep hc q u) t hmem
        exact ⟨le_trans (toMin_le_intervalStep hc q u) h1, h2⟩
    · cases ht

/-- Every fixed-time emission lies inside `[startT, endT]` (the loop body
checks both bounds explicitly before emitting). -/
theorem genFixedAux_bounds (times : List (Nat × Nat)) (startT endT : Int)
    (bw : Option (List Int)) :
    ∀ (fuel : Nat) (c : DT), ∀ t ∈ genFixedAux times startT endT bw fuel c,
      startT ≤ t ∧ t ≤ endT := by
  intro fuel
  induction fuel with
  | zero =>
    intro c t ht
    simp [genFixedAux] at ht
  | succ f ih =>
    intro c t ht
    unfold genFixedAux at ht
    split_ifs at ht with hle hskip
    · simp only [List.nil_append] at ht
      exact ih (c.addDays 1) t ht
    · rcases List.mem_append.mp ht with hd | hr
      · simp only [dayEmits, List.mem_filterMap] at hd
        obtain ⟨tm, _, htm⟩ := hd
        split_ifs at htm with hcond
        cases htm
        exact hcond
      · exact ih (c.addDays 1) t hr
    · cases ht

/-- C5 counterexample: the daily medication `medC5` ends 2024-01-05, yet
materializing over the window 2024-01-01..2024-01-31 emits an occurrence
on 2024-01-10, five days past the bounded end date — the end date is only
consulted by the all-or-nothing guard `medEndDate < startDate`, never as a
generation bound, so the claimed containment in the active window fails at
this input. -/
theorem C5_counterexample :
    medC5.endDate = some ⟨2024, 1, 5, 0⟩ ∧
    (DT.mk 2024 1 10 0).toMin ∈
      generateOccurrences medC5 ⟨2024, 1, 1, 0⟩ ⟨2024, 1, 31, 0⟩ 40 ∧
    (DT.mk 2024 1 5 0).toMin < (DT.mk 2024 1 10 0).toMin := by
  refine ⟨rfl, by decide, by decide⟩

/-- C5 (amended): every generated occurrence lies within
`[max(windowStart, activeWindow.start), windowEnd]` — at or after both the
window start and the medication's start date, and at or before the window
end.  (The bounded end date of the medication is not respected: when
`activeWindow.end ≥ windowStart` the generator runs to the window end.) -/
theorem C5_occurrences_in_window (med : Medication) (ws we : DT) (fuel : Nat)
    (hmed : med.startDate.Valid) (hws : ws.Valid) :
    ∀ t ∈ generateOccurrences med ws we fuel,
      ws.toMin ≤ t ∧ med.startDate.toMin ≤ t ∧ t ≤ we.toMin := by
  intro t ht
  unfold generateOccurrences at ht
  split_ifs at ht with hout
  · cases ht
  · have hgsv : (generationStart med ws).Valid := by
      unfold generationStart
      split_ifs
      · exact hmed
      · exact hws
    have hgs1 : ws.toMin ≤ (generationStart med ws).toMin := by
      unfold generationStart
      split_ifs with hgt
      · omega
      · exact le_refl _
    have hgs2 : med.startDate.toMin ≤ (generationStart med ws).toMin := by
      unfold generationStart
      split_ifs with hgt
      · exact le_refl _
      · omega
    split at ht
    · split_ifs at ht with hlen
      · have hb := genFixedAux_bounds _ (generationStart med ws).toMin we.toMin
          med.byweekday fuel (generationStart med ws) t ht
        exact ⟨le_trans hgs1 hb.1, le_trans hgs2 hb.1, hb.2⟩
      · have hb := genIntervalAux_bounds med.intervalQty med.intervalUnit we.toMin
          fuel (generationStart med ws) hgsv t ht
        exact ⟨le_trans hgs1 hb.1, le_trans hgs2 hb.1, hb.2⟩
    · have hb := genIntervalAux_bounds med.intervalQty med.intervalUnit we.toMin
        fuel (generationStart med ws) hgsv t ht
      exact ⟨le_trans hgs1 hb.1, le_trans hgs2 hb.1, hb.2⟩

/-- C5 witness: the window bounds at the concrete daily medication, for
the occurrence emitted on 2024-01-10. -/
theorem C5_occurrences_in_window_witness :
    (DT.mk 2024 1 1 0).toMin ≤ (DT.mk 2024 1 10 0).toMin ∧
    medC5.startDate.toMin ≤ (DT.mk 2024 1 10 0).toMin ∧
    (DT.mk 2024 1 10 0).toMin ≤ (DT.mk 2024 1 31 0).toMin :=
  C5_occurrences_in_window medC5 ⟨2024, 1, 1, 0⟩ ⟨2024, 1, 31, 0⟩ 40
    (by decide) (by decide) ((DT.mk 2024 1 10 0).toMin) (by decide)

theorem DT.addDays_add (c : DT) (a b : Nat) :
    c.addDays (a + b) = (c.addDays a).addDays b := by
  induction a generalizing c with
  | zero => simp [DT.addDays]
  | succ j ih =>
    have hx : j + 1 + b = (j + b) + 1 := by omega
    rw [hx]
    show c.nextDay.addDays (j + b) = _
    rw [ih]
    rfl

/-- Day stepping that stays within one month just increments the day. -/
theorem addDays_within (y : Int) (m : Nat) (tod : Nat) :
    ∀ (k d : Nat), 1 ≤ d → d + k ≤ monthLen y m →
      (DT.mk y m d tod).addDays k = DT.mk y m (d + k) tod := by
  intro k
  induction k with
  | zero =>
    intro d _ _
    simp [DT.addDays]
  | succ j ih =>
    intro d hd hdk
    show (DT.mk y m d tod).nextDay.addDays j = _
    have hlt : d < monthLen y m := by omega
    have hnd : (DT.mk y m d tod).nextDay = DT.mk y m (d + 1) tod := by
      unfold DT.nextDay
      simp only [if_pos hlt]
    rw [hnd, ih (d + 1) (by omega) (by omega)]
    have hx : d + 1 + j = d + (j + 1) := by omega
    rw [hx]

/-- Stepping past the last day of the month with index `i` lands on the
first day of the month with index `i + 1`. -/
theorem nextDay_monthEnd (i : Int) (tod : Nat) :
    (DT.mk (i / 12) ((i % 12).toNat + 1)
      (monthLen (i / 12) ((i % 12).toNat + 1)) tod).nextDay = firstOf (i + 1) tod := by
  have h0 : 0 ≤ i % 12 := Int.emod_nonneg i (by norm_num)
  have h1 : i % 12 < 12 := Int.emod_lt_of_pos i (by norm_num)
  unfold DT.nextDay firstOf
  rw [if_neg (by show ¬(monthLen (i / 12) ((i % 12).toNat + 1) <
    monthLen (i / 12) ((i % 12).toNat + 1)); omega)]
  by_cases hm : (i % 12).toNat + 1 < 12
  · rw [if_pos hm]
    have hy : (i + 1) / 12 = i / 12 := by omega
    have hmm : ((i + 1) % 12).toNat = (i % 12).toNat + 1 := by omega
    rw [hy, hmm]
  · rw [if_neg hm]
    have hy : (i + 1) / 12 = i / 12 + 1 := by omega
    have hmm : ((i + 1) % 12).toNat = 0 := by omega
    rw [hy, hmm]

/-- A day offset from the first of month `i` that overshoots the month
spills into month `i + 1`, landing `d - monthLen` days in (JS `Date`
normalization, not clamping). -/
theorem addDays_firstOf_spill (i : Int) (tod : Nat) (d : Nat)
    (hd1 : 1 ≤ d) (hd31 : d ≤ 31)
    (hspill : monthLen (i / 12) ((i % 12).toNat + 1) < d) :
    (firstOf i tod).addDays (d - 1) =
      DT.mk ((i + 1) / 12) (((i + 1) % 12).toNat + 1)
        (d - monthLen (i / 12) ((i % 12).toNat + 1)) tod := by
  have hlen28 := monthLen_ge (i / 12) ((i % 12).toNat + 1)
  have hlen28b := monthLen_ge ((i + 1) / 12) (((i + 1) % 12).toNat + 1)
  have hx : d - 1 = (monthLen (i / 12) ((i % 12).toNat + 1) - 1) + 1 +
      (d - monthLen (i / 12) ((i % 12).toNat + 1) - 1) := by omega
  rw [hx, DT.addDays_add, DT.addDays_add]
  have hfirst : firstOf i tod = DT.mk (i / 12) ((i % 12).toNat + 1) 1 tod := rfl
  rw [hfirst,
    addDays_within _ _ _ (monthLen (i / 12) ((i % 12).toNat + 1) - 1) 1
      (le_refl 1) (by omega)]
  have hone : (DT.mk (i / 12) ((i % 12).toNat + 1)
      (1 + (monthLen (i / 12) ((i % 12).toNat + 1) - 1)) tod).addDays 1 =
      firstOf (i + 1) tod := by
    have he : 1 + (monthLen (i / 12) ((i % 12).toNat + 1) - 1) =
        monthLen (i / 12) ((i % 12).toNat + 1) := by omega
    rw [he]
    show (DT.mk (i / 12) ((i % 12).toNat + 1)
      (monthLen (i / 12) ((i % 12).toNat + 1)) tod).nextDay.addDays 0 = _
    rw [nextDay_monthEnd]
    rfl
  rw [hone]
  have hsecond : firstOf (i + 1) tod =
      DT.mk ((i + 1) / 12) (((i + 1) % 12).toNat + 1) 1 tod := rfl
  rw [hsecond,
    addDays_within _ _ _ (d - monthLen (i / 12) ((i % 12).toNat + 1) - 1) 1
      (le_refl 1) (by omega)]
  have he : 1 + (d - monthLen (i / 12) ((i % 12).toNat + 1) - 1) =
      d - monthLen (i / 12) ((i % 12).toNat + 1) := by omega
  rw [he]

set_option maxRecDepth 2000 in
/-- C8 counterexample: in interval months mode, the step applied to
2024-01-31 yields 2024-03-02 (JS `setMonth` keeps the day number 31 and
normalizes the non-existent Feb 31 into March), not the last valid day of
February — so the claimed day clamping fails at this input. -/
theorem C8_counterexample :
    intervalStep 1 .months (DT.mk 2024 1 31 0) = DT.mk 2024 3 2 0 ∧
    intervalStep 1 .months (DT.mk 2024 1 31 0) ≠ DT.mk 2024 2 29 0 := by
  decide

/-- C8 (amended): minute, hour, day and week intervals add exact elapsed
time; month addition targets the calendar month `q` months ahead keeping
the day-of-month, and when that day does not exist in the target month the
date spills into the following month by the excess days (JS `Date`
rollover) instead of clamping to the target month's last valid day. -/
theorem C8_interval_arithmetic (c : DT) (h : c.Valid) (q : Nat) :
    (intervalStep q .minutes c).toMin = c.toMin + q ∧
    (intervalStep q .hours c).toMin = c.toMin + 60 * q ∧
    (intervalStep q .days c).toMin = c.toMin + 1440 * q ∧
    (intervalStep q .weeks c).toMin = c.toMin + 1440 * (7 * q) ∧
    (c.day ≤ monthLen ((monthIdx c.year c.month + q) / 12)
        (((monthIdx c.year c.month + q) % 12).toNat + 1) →
      intervalStep q .months c =
        DT.mk ((monthIdx c.year c.month + q) / 12)
          (((monthIdx c.year c.month + q) % 12).toNat + 1) c.day c.minuteOfDay) ∧
    (monthLen ((monthIdx c.year c.month + q) / 12)
        (((monthIdx c.year c.month + q) % 12).toNat + 1) < c.day →
      intervalStep q .months c =
        DT.mk ((monthIdx c.year c.month + q + 1) / 12)
          (((monthIdx c.year c.month + q + 1) % 12).toNat + 1)
          (c.day - monthLen ((monthIdx c.year c.month + q) / 12)
            (((monthIdx c.year c.month + q) % 12).toNat + 1)) c.minuteOfDay) := by
  obtain ⟨hm1, hm2, hd1, hd2, htod⟩ := h
  refine ⟨?_, ?_, ?_, ?_, ?_, ?_⟩
  · rw [show intervalStep q .minutes c = c.addMinutes q from rfl,
      DT.toMin_addMinutes ⟨hm1, hm2, hd1, hd2, htod⟩ q]
  · rw [show intervalStep q .hours c = c.addMinutes (60 * q) from rfl,
      DT.toMin_addMinutes ⟨hm1, hm2, hd1, hd2, htod⟩ _]
    push_cast
    ring
  · rw [show intervalStep q .days c = c.addDays q from rfl,
      DT.toMin_addDays ⟨hm1, hm2, hd1, hd2, htod⟩ q]
  · rw [show intervalStep q .weeks c = c.addDays (7 * q) from rfl,
      DT.toMin_addDays ⟨hm1, hm2, hd1, hd2, htod⟩ _]
    push_cast
    ring
  · intro hfit
    show (firstOf (monthIdx c.year c.month + q) c.minuteOfDay).addDays (c.day - 1) = _
    have hfirst : firstOf (monthIdx c.year c.month + q) c.minuteOfDay =
        DT.mk ((monthIdx c.year c.month + q) / 12)
          (((monthIdx c.year c.month + q) % 12).toNat + 1) 1 c.minuteOfDay := rfl
    rw [hfirst, addDays_within _ _ _ (c.day - 1) 1 (le_refl 1) (by omega)]
    have he : 1 + (c.day - 1) = c.day := by omega
    rw [he]
  · intro hspill
    show (firstOf (monthIdx c.year c.month + q) c.minuteOfDay).addDays (c.day - 1) = _
    have hd31 : c.day ≤ 31 := le_trans hd2 (monthLen_le _ _)
    exact addDays_firstOf_spill _ _ _ hd1 hd31 hspill

/-- C8 witness: the amended characterization at the concrete date
2024-01-31 with a one-month step (the spill branch applies: Feb 2024 has
29 days, so the result is 2024-03-02). -/
theorem C8_interval_arithmetic_witness :
    (intervalStep 1 .minutes (DT.mk 2024 1 31 0)).toMin =
        (DT.mk 2024 1 31 0).toMin + 1 ∧
    (intervalStep 1 .hours (DT.mk 2024 1 31 0)).toMin =
        (DT.mk 2024 1 31 0).toMin + 60 * 1 ∧
    (intervalStep 1 .days (DT.mk 2024 1 31 0)).toMin =
        (DT.mk 2024 1 31 0).toMin + 1440 * 1 ∧
    (intervalStep 1 .weeks (DT.mk 2024 1 31 0)).toMin =
        (DT.mk 2024 1 31 0).toMin + 1440 * (7 * 1) ∧
    ((DT.mk 2024 1 31 0).day ≤ monthLen ((monthIdx 2024 1 + 1) / 12)
        (((monthIdx 2024 1 + 1) % 12).toNat + 1) →
      intervalStep 1 .months (DT.mk 2024 1 31 0) =
        DT.mk ((monthIdx 2024 1 + 1) / 12)
          (((monthIdx 2024 1 + 1) % 12).toNat + 1) 31 0) ∧
    (monthLen ((monthIdx 2024 1 + 1) / 12)
        (((monthIdx 2024 1 + 1) % 12).toNat + 1) < (DT.mk 2024 1 31 0).day →
      intervalStep 1 .months (DT.mk 2024 1 31 0) =
        DT.mk ((monthIdx 2024 1 + 1 + 1) / 12)
          (((monthIdx 2024 1 + 1 + 1) % 12).toNat + 1)
          (31 - monthLen ((monthIdx 2024 1 + 1) / 12)
            (((monthIdx 2024 1 + 1) % 12).toNat + 1)) 0) :=
  C8_interval_arithmetic (DT.mk 2024 1 31 0) (by decide) 1

theorem toMin_jsSetHours (c : DT) (h mi : Nat) :
    (c.jsSetHours h mi).toMin = 1440 * c.toDays + (60 * h + mi) := rfl

theorem div_1440_of_tod (D : Int) (tod : Nat) (h : tod < 1440) :
    (1440 * D + (tod : Int)) / 1440 = D ∧ (1440 * D + (tod : Int)) % 1440 = tod := by
  omega

/-- Safety half of the fixed-time mode: with a non-empty weekday filter,
every emission falls on a day whose adjusted weekday is in the filter and
carries a time of day listed in `times`. -/
theorem genFixedAux_safety (times : List (Nat × Nat)) (startT endT : Int)
    (ws : List Int) (hne : ws ≠ [])
    (hval : ∀ tm ∈ times, tm.1 < 24 ∧ tm.2 < 60) :
    ∀ (fuel : Nat) (c : DT), c.Valid →
      ∀ t ∈ genFixedAux times startT endT (some ws) fuel c,
        adjWeekdayOfMin t ∈ ws ∧ ∃ tm ∈ times, t % 1440 = 60 * tm.1 + tm.2 := by
  intro fuel
  induction fuel with
  | zero =>
    intro c _ t ht
    simp [genFixedAux] at ht
  | succ f ih =>
    intro c hc t ht
    unfold genFixedAux at ht
    split_ifs at ht with hle hskip
    · simp only [List.nil_append] at ht
      exact ih (c.addDays 1) (DT.valid_addDays hc 1) t ht
    · rcases List.mem_append.mp ht with hd | hr
      · simp only [dayEmits, List.mem_filterMap] at hd
        obtain ⟨tm, htm, heq⟩ := hd
        split_ifs at heq with hcond
        cases heq
        have htod : 60 * tm.1 + tm.2 < 1440 := by
          obtain ⟨hh, hm⟩ := hval tm htm
          omega
        rw [toMin_jsSetHours]
        constructor
        · have hmem : adjWeekday c ∈ ws := by
            by_contra hnot
            apply hskip
            show (!ws.isEmpty && !ws.contains (adjWeekday c)) = true
            have h1 : ws.isEmpty = false := by
              cases ws
              · exact absurd rfl hne
              · rfl
            have h2 : ws.contains (adjWeekday c) = false := by
              simpa using hnot
            rw [h1, h2]
            rfl
          have heqw : adjWeekdayOfMin
              (1440 * c.toDays + (60 * (tm.1 : Int) + (tm.2 : Int))) =
              adjWeekday c := by
            unfold adjWeekdayOfMin adjWeekday DT.getDayJS
            have hdiv2 : (1440 * c.toDays +
                (60 * (tm.1 : Int) + (tm.2 : Int))) / 1440 = c.toDays := by
              omega
            rw [hdiv2]
          rw [heqw]
          exact hmem
        · exact ⟨tm, htm, by omega⟩
      · exact ih (c.addDays 1) (DT.valid_addDays hc 1) t hr
    · cases ht

theorem dayEmits_all (times : List (Nat × Nat)) (startT endT : Int) (c : DT)
    (h : ∀ tm ∈ times, startT ≤ (c.jsSetHours tm.1 tm.2).toMin ∧
      (c.jsSetHours tm.1 tm.2).toMin ≤ endT) :
    dayEmits times startT endT c =
      times.map (fun tm => (c.jsSetHours tm.1 tm.2).toMin) := by
  induction times with
  | nil => rfl
  | cons a l ih =>
    have ha := h a (List.mem_cons_self a l)
    have hrest := ih (fun tm htm => h tm (List.mem_cons_of_mem a htm))
    simp only [dayEmits] at hrest ⊢
    simp [List.filterMap_cons, ha.1, ha.2, hrest]

/-- Fixed-time emissions never precede the running day. -/
theorem genFixedAux_day_lb (times : List (Nat × Nat)) (startT endT : Int)
    (bw : Option (List Int))
    (hval : ∀ tm ∈ times, tm.1 < 24 ∧ tm.2 < 60) :
    ∀ (fuel : Nat) (c : DT), c.Valid →
      ∀ t ∈ genFixedAux times startT endT bw fuel c, c.toDays ≤ t / 1440 := by
  intro fuel
  induction fuel with
  | zero =>
    intro c _ t ht
    simp [genFixedAux] at ht
  | succ f ih =>
    intro c hc t ht
    unfold genFixedAux at ht
    split_ifs at ht with hle hskip
    · simp only [List.nil_append] at ht
      have := ih (c.addDays 1) (DT.valid_addDays hc 1) t ht
      rw [DT.toDays_addDays hc 1] at this
      omega
    · rcases List.mem_append.mp ht with hd | hr
      · simp only [dayEmits, List.mem_filterMap] at hd
        obtain ⟨tm, htm, heq⟩ := hd
        split_ifs at heq with hcond
        cases heq
        have htod : 60 * tm.1 + tm.2 < 1440 := by
          obtain ⟨hh, hm⟩ := hval tm htm
          omega
        rw [toMin_jsSetHours]
        obtain ⟨hdiv, _⟩ := div_1440_of_tod c.toDays (60 * tm.1 + tm.2) htod
        omega
      · have := ih (c.addDays 1) (DT.valid_addDays hc 1) t hr
        rw [DT.toDays_addDays hc 1] at this
        omega
    · cases ht

/-- Completeness half of the fixed-time mode: restricted to the day
visited at step `k` — when it is reached, not weekday-skipped, and all its
listed times lie inside the window — the emissions are exactly one
timestamp per `times_of_day` entry, in order. -/
theorem genFixedAux_day_filter (times : List (Nat × Nat)) (startT endT : Int)
    (bw : Option (List Int))
    (hval : ∀ tm ∈ times, tm.1 < 24 ∧ tm.2 < 60) :
    ∀ (fuel : Nat) (c : DT) (k : Nat), c.Valid →
      k < fuel → (c.addDays k).toMin ≤ endT →
      skipDay bw (c.addDays k) = false →
      (∀ tm ∈ times,
        startT ≤ 1440 * (c.addDays k).toDays + (60 * tm.1 + tm.2) ∧
        1440 * (c.addDays k).toDays + (60 * tm.1 + tm.2) ≤ endT) →
      (genFixedAux times startT endT bw fuel c).filter
          (fun t => t / 1440 = (c.addDays k).toDays) =
        times.map (fun tm => 1440 * (c.addDays k).toDays + (60 * tm.1 + tm.2)) := by
  intro fuel
  induction fuel with
  | zero =>
    intro c k _ hk
    omega
  | succ f ih =>
    intro c k hc hk hreach hskip hwin
    have hguard : c.toMin ≤ endT := by
      have := DT.toMin_addDays hc k
      omega
    unfold genFixedAux
    rw [if_pos hguard, List.filter_append]
    cases k with
    | zero =>
      have hA0 : c.addDays 0 = c := rfl
      rw [hA0] at hreach hskip hwin ⊢
      rw [if_neg (by rw [hskip]; exact Bool.false_ne_true)]
      have hemits : dayEmits times startT endT c =
          times.map (fun tm => (c.jsSetHours tm.1 tm.2).toMin) :=
        dayEmits_all times startT endT c (fun tm htm => by
          rw [toMin_jsSetHours]
          exact hwin tm htm)
      rw [hemits]
      have hkeep : (times.map (fun tm => (c.jsSetHours tm.1 tm.2).toMin)).filter
          (fun t => t / 1440 = c.toDays) =
          times.map (fun tm => (c.jsSetHours tm.1 tm.2).toMin) := by
        rw [List.filter_eq_self]
        intro t ht
        obtain ⟨tm, htm, rfl⟩ := List.mem_map.mp ht
        have htod : 60 * tm.1 + tm.2 < 1440 := by
          obtain ⟨hh, hm⟩ := hval tm htm
          omega
        simp only [decide_eq_true_eq]
        rw [toMin_jsSetHours]
        omega
      have hrest : (genFixedAux times startT endT bw f (c.addDays 1)).filter
          (fun t => t / 1440 = c.toDays) = [] := by
        rw [List.filter_eq_nil_iff]
        intro t ht
        have hlb := genFixedAux_day_lb times startT endT bw hval f
          (c.addDays 1) (DT.valid_addDays hc 1) t ht
        rw [DT.toDays_addDays hc 1] at hlb
        simp only [decide_eq_true_eq]
        omega
      rw [hkeep, hrest, List.append_nil]
      rfl
    | succ j =>
      have hdrop : ((if skipDay bw c then [] else dayEmits times startT endT c)).filter
          (fun t => t / 1440 = (c.addDays (j + 1)).toDays) = [] := by
        rw [List.filter_eq_nil_iff]
        intro t ht
        have hday : t / 1440 = c.toDays := by
          split_ifs at ht with hs
          · cases ht
          · simp only [dayEmits, List.mem_filterMap] at ht
            obtain ⟨tm, htm, heq⟩ := ht
            split_ifs at heq with hcond
            cases heq
            have htod : 60 * tm.1 + tm.2 < 1440 := by
              obtain ⟨hh, hm⟩ := hval tm htm
              omega
            rw [toMin_jsSetHours]
            omega
        have hfar : (c.addDays (j + 1)).toDays = c.toDays + (j + 1) :=
          DT.toDays_addDays hc (j + 1)
        simp only [decide_eq_true_eq]
        omega
      rw [hdrop, List.nil_append]
      have hstep : c.addDays (j + 1) = (c.addDays 1).addDays j := by
        have hx : j + 1 = 1 + j := by omega
        rw [hx, DT.addDays_add]
      rw [hstep] at hreach hskip hwin ⊢
      exact ih (c.addDays 1) j (DT.valid_addDays hc 1) (by omega) hreach hskip hwin

/-- Fixed-time generation with non-empty times, specialized from
`generateOccurrences` when the medication is not outside the window. -/
theorem generateOccurrences_fixed (med : Medication) (ws we : DT) (fuel : Nat)
    (ts : List (Nat × Nat)) (hts : med.timesOfDay = some ts)
    (hlen : ts.length > 0)
    (hout : ¬ medOutsidePeriod med ws we = true) :
    generateOccurrences med ws we fuel =
      genFixedAux ts (generationStart med ws).toMin we.toMin med.byweekday fuel
        (generationStart med ws) := by
  unfold generateOccurrences
  rw [if_neg hout, hts]
  show (if ts.length > 0 then genFixedAux ts (generationStart med ws).toMin
    we.toMin med.byweekday fuel (generationStart med ws) else
    genIntervalAux med.intervalQty med.intervalUnit we.toMin fuel
      (generationStart med ws)) = _
  rw [if_pos hlen]

/-- Interval-mode generation, specialized from `generateOccurrences` when
the medication is not outside the window. -/
theorem generateOccurrences_interval (med : Medication) (ws we : DT) (fuel : Nat)
    (hts : med.timesOfDay = none)
    (hout : ¬ medOutsidePeriod med ws we = true) :
    generateOccurrences med ws we fuel =
      genIntervalAux med.intervalQty med.intervalUnit we.toMin fuel
        (generationStart med ws) := by
  unfold generateOccurrences
  rw [if_neg hout, hts]

theorem generateOccurrences_outside (med : Medication) (ws we : DT) (fuel : Nat)
    (hout : medOutsidePeriod med ws we = true) :
    generateOccurrences med ws we fuel = [] := by
  unfold generateOccurrences
  rw [if_pos hout]

theorem generationStart_valid {med : Medication} {ws : DT}
    (hmed : med.startDate.Valid) (hws : ws.Valid) :
    (generationStart med ws).Valid := by
  unfold generationStart
  split_ifs
  · exact hmed
  · exact hws

/-- C9: for a valid fixed-time schedule with a non-empty weekday filter,
every emission falls on a day whose adjusted weekday (0 = Monday ..
6 = Sunday) is in the filter and carries a listed time of day; and on each
day the generator visits that passes the filter and whose listed times all
lie within the window, it emits exactly one timestamp per `times_of_day`
entry and nothing else. -/
theorem C9_fixed_time_weekday_filter (med : Medication) (ws we : DT)
    (fuel : Nat) (wd : List Int) (ts : List (Nat × Nat))
    (hts : med.timesOfDay = some ts) (htne : ts ≠ [])
    (hwd : med.byweekday = some wd) (hwdne : wd ≠ [])
    (hmed : med.startDate.Valid) (hws : ws.Valid)
    (hval : ∀ tm ∈ ts, tm.1 < 24 ∧ tm.2 < 60) :
    (∀ t ∈ generateOccurrences med ws we fuel,
       adjWeekdayOfMin t ∈ wd ∧ ∃ tm ∈ ts, t % 1440 = 60 * tm.1 + tm.2) ∧
    (∀ k : Nat, k < fuel →
      ¬ medOutsidePeriod med ws we = true →
      ((generationStart med ws).addDays k).toMin ≤ we.toMin →
      skipDay (some wd) ((generationStart med ws).addDays k) = false →
      (∀ tm ∈ ts,
        (generationStart med ws).toMin ≤
          1440 * ((generationStart med ws).addDays k).toDays +
            (60 * tm.1 + tm.2) ∧
        1440 * ((generationStart med ws).addDays k).toDays +
          (60 * tm.1 + tm.2) ≤ we.toMin) →
      (generateOccurrences med ws we fuel).filter
          (fun t => t / 1440 = ((generationStart med ws).addDays k).toDays) =
        ts.map (fun tm =>
          1440 * ((generationStart med ws).addDays k).toDays +
            (60 * tm.1 + tm.2))) := by
  have hlen : ts.length > 0 := by
    cases ts
    · exact absurd rfl htne
    · simp
  have hgsv : (generationStart med ws).Valid := generationStart_valid hmed hws
  constructor
  · intro t ht
    by_cases hout : medOutsidePeriod med ws we = true
    · rw [generateOccurrences_outside med ws we fuel hout] at ht
      cases ht
    · rw [generateOccurrences_fixed med ws we fuel ts hts hlen hout, hwd] at ht
      exact genFixedAux_safety ts (generationStart med ws).toMin we.toMin wd
        hwdne hval fuel (generationStart med ws) hgsv t ht
  · intro k hk hout hreach hskip hwin
    rw [generateOccurrences_fixed med ws we fuel ts hts hlen hout, hwd]
    exact genFixedAux_day_filter ts (generationStart med ws).toMin we.toMin
      (some wd) hval fuel (generationStart med ws) k hgsv hk hreach hskip hwin

/-- C9 witness: the Monday/Wednesday/Friday 08:00 and 20:00 schedule over
the week of 2024-01-01. -/
theorem C9_fixed_time_weekday_filter_witness :
    (∀ t ∈ generateOccurrences medC9 ⟨2024, 1, 1, 0⟩ ⟨2024, 1, 8, 0⟩ 10,
       adjWeekdayOfMin t ∈ [(0 : Int), 2, 4] ∧
       ∃ tm ∈ [((8 : Nat), (0 : Nat)), (20, 0)], t % 1440 = 60 * tm.1 + tm.2) ∧
    (∀ k : Nat, k < 10 →
      ¬ medOutsidePeriod medC9 ⟨2024, 1, 1, 0⟩ ⟨2024, 1, 8, 0⟩ = true →
      ((generationStart medC9 ⟨2024, 1, 1, 0⟩).addDays k).toMin ≤
        (DT.mk 2024 1 8 0).toMin →
      skipDay (some [(0 : Int), 2, 4])
        ((generationStart medC9 ⟨2024, 1, 1, 0⟩).addDays k) = false →
      (∀ tm ∈ [((8 : Nat), (0 : Nat)), (20, 0)],
        (generationStart medC9 ⟨2024, 1, 1, 0⟩).toMin ≤
          1440 * ((generationStart medC9 ⟨2024, 1, 1, 0⟩).addDays k).toDays +
            (60 * tm.1 + tm.2) ∧
        1440 * ((generationStart medC9 ⟨2024, 1, 1, 0⟩).addDays k).toDays +
          (60 * tm.1 + tm.2) ≤ (DT.mk 2024 1 8 0).toMin) →
      (generateOccurrences medC9 ⟨2024, 1, 1, 0⟩ ⟨2024, 1, 8, 0⟩ 10).filter
          (fun t => t / 1440 =
            ((generationStart medC9 ⟨2024, 1, 1, 0⟩).addDays k).toDays) =
        [((8 : Nat), (0 : Nat)), (20, 0)].map (fun tm =>
          1440 * ((generationStart medC9 ⟨2024, 1, 1, 0⟩).addDays k).toDays +
            (60 * tm.1 + tm.2))) :=
  C9_fixed_time_weekday_filter medC9 ⟨2024, 1, 1, 0⟩ ⟨2024, 1, 8, 0⟩ 10
    [0, 2, 4] [(8, 0), (20, 0)] rfl (by decide) rfl (by decide) (by decide)
    (by decide) (by decide)

theorem genIntervalAux_iterate (q : Nat) (u : IntervalUnit) (endT : Int) :
    ∀ (fuel : Nat) (c : DT), ∀ t ∈ genIntervalAux q u endT fuel c,
      ∃ k : Nat, t = (Nat.iterate (intervalStep q u) k c).toMin := by
  intro fuel
  induction fuel with
  | zero =>
    intro c t ht
    simp [genIntervalAux] at ht
  | succ f ih =>
    intro c t ht
    unfold genIntervalAux at ht
    split_ifs at ht with hle
    · rcases List.mem_cons.mp ht with rfl | hmem
      · exact ⟨0, rfl⟩
      · obtain ⟨k, hk⟩ := ih (intervalStep q u c) t hmem
        exact ⟨k + 1, by rw [hk, Function.iterate_succ_apply]⟩
    · cases ht

theorem genIntervalAux_additive (q : Nat) (u : IntervalUnit) (m : Int)
    (endT : Int)
    (hstep : ∀ c : DT, c.Valid → (intervalStep q u c).toMin = c.toMin + m) :
    ∀ (fuel : Nat) (c : DT), c.Valid →
      ∀ t ∈ genIntervalAux q u endT fuel c, ∃ k : Nat, t = c.toMin + k * m := by
  intro fuel
  induction fuel with
  | zero =>
    intro c _ t ht
    simp [genIntervalAux] at ht
  | succ f ih =>
    intro c hc t ht
    unfold genIntervalAux at ht
    split_ifs at ht with hle
    · rcases List.mem_cons.mp ht with rfl | hmem
      · exact ⟨0, by push_cast; ring⟩
      · obtain ⟨k, hk⟩ := ih (intervalStep q u c) (valid_intervalStep hc q u) t hmem
        refine ⟨k + 1, ?_⟩
        rw [hk, hstep c hc]
        push_cast
        ring
    · cases ht

theorem genIntervalAux_head (q : Nat) (u : IntervalUnit) (endT : Int)
    (f : Nat) (c : DT) (hle : c.toMin ≤ endT) :
    (genIntervalAux q u endT (f + 1) c).head? = some c.toMin := by
  unfold genIntervalAux
  rw [if_pos hle]
  rfl

/-- C10: interval emission is anchored to the materialization window —
with the medication's start date strictly before `windowStart` (and the
window non-degenerate), the first emitted timestamp is `windowStart`
itself, every emitted timestamp is an iterate of the interval step from
`windowStart`, and for the exact-elapsed-time units the emissions are
`windowStart` plus multiples of the interval length. -/
theorem C10_interval_anchored_to_window (med : Medication) (ws we : DT)
    (fuel : Nat) (hws : ws.Valid) (hmode : med.timesOfDay = none)
    (hstart : med.startDate.toMin < ws.toMin)
    (hend : ∀ e, med.endDate = some e → ws.toMin ≤ e.toMin)
    (hwin : ws.toMin ≤ we.toMin) (hfuel : 0 < fuel) :
    (generateOccurrences med ws we fuel).head? = some ws.toMin ∧
    (∀ t ∈ generateOccurrences med ws we fuel, ∃ k : Nat,
      t = (Nat.iterate (intervalStep med.intervalQty med.intervalUnit) k ws).toMin) ∧
    (med.intervalUnit = .minutes →
      ∀ t ∈ generateOccurrences med ws we fuel, ∃ k : Nat,
        t = ws.toMin + k * (med.intervalQty : Int)) ∧
    (med.intervalUnit = .hours →
      ∀ t ∈ generateOccurrences med ws we fuel, ∃ k : Nat,
        t = ws.toMin + k * (60 * (med.intervalQty : Int))) ∧
    (med.intervalUnit = .days →
      ∀ t ∈ generateOccurrences med ws we fuel, ∃ k : Nat,
        t = ws.toMin + k * (1440 * (med.intervalQty : Int))) ∧
    (med.intervalUnit = .weeks →
      ∀ t ∈ generateOccurrences med ws we fuel, ∃ k : Nat,
        t = ws.toMin + k * (1440 * (7 * (med.intervalQty : Int)))) := by
  have hout : medOutsidePeriod med ws we = false := by
    unfold medOutsidePeriod
    rw [Bool.or_eq_false_iff]
    constructor
    · simp only [decide_eq_false_iff_not]
      omega
    · cases hE : med.endDate with
      | none => rfl
      | some e =>
        simp only [decide_eq_false_iff_not]
        have := hend e hE
        omega
  have hout2 : ¬ medOutsidePeriod med ws we = true := by
    rw [hout]
    exact Bool.false_ne_true
  have hgs : generationStart med ws = ws := by
    unfold generationStart
    rw [if_neg (by omega)]
  have hgen : generateOccurrences med ws we fuel =
      genIntervalAux med.intervalQty med.intervalUnit we.toMin fuel ws := by
    rw [generateOccurrences_interval med ws we fuel hmode hout2, hgs]
  obtain ⟨f, rfl⟩ : ∃ f, fuel = f + 1 := ⟨fuel - 1, by omega⟩
  refine ⟨?_, ?_, ?_, ?_, ?_, ?_⟩
  · rw [hgen]
    exact genIntervalAux_head _ _ _ f ws hwin
  · intro t ht
    rw [hgen] at ht
    exact genIntervalAux_iterate _ _ _ _ ws t ht
  · intro hu t ht
    rw [hgen, hu] at ht
    exact genIntervalAux_additive med.intervalQty .minutes _ we.toMin
      (fun c hc => by
        rw [show intervalStep med.intervalQty .minutes c =
          c.addMinutes med.intervalQty from rfl, DT.toMin_addMinutes hc])
      (f + 1) ws hws t ht
  · intro hu t ht
    rw [hgen, hu] at ht
    exact genIntervalAux_additive med.intervalQty .hours _ we.toMin
      (fun c hc => by
        rw [show intervalStep med.intervalQty .hours c =
          c.addMinutes (60 * med.intervalQty) from rfl, DT.toMin_addMinutes hc]
        push_cast
        ring)
      (f + 1) ws hws t ht
  · intro hu t ht
    rw [hgen, hu] at ht
    exact genIntervalAux_additive med.intervalQty .days _ we.toMin
      (fun c hc => by
        rw [show intervalStep med.intervalQty .days c =
          c.addDays med.intervalQty from rfl, DT.toMin_addDays hc])
      (f + 1) ws hws t ht
  · intro hu t ht
    rw [hgen, hu] at ht
    exact genIntervalAux_additive med.intervalQty .weeks _ we.toMin
      (fun c hc => by
        rw [show intervalStep med.intervalQty .weeks c =
          c.addDays (7 * med.intervalQty) from rfl, DT.toMin_addDays hc]
        push_cast
        ring)
      (f + 1) ws hws t ht

/-- C10 witness: the 8-hourly medication starting 2023-12-25, materialized
over the window 2024-01-01..2024-01-02 — the emissions restart at the
window start, not at the prescription's own phase. -/
theorem C10_interval_anchored_to_window_witness :
    (generateOccurrences medC10 ⟨2024, 1, 1, 0⟩ ⟨2024, 1, 2, 0⟩ 9).head? =
      some (DT.mk 2024 1 1 0).toMin ∧
    (∀ t ∈ generateOccurrences medC10 ⟨2024, 1, 1, 0⟩ ⟨2024, 1, 2, 0⟩ 9,
      ∃ k : Nat, t = (Nat.iterate
        (intervalStep medC10.intervalQty medC10.intervalUnit) k
        ⟨2024, 1, 1, 0⟩).toMin) ∧
    (medC10.intervalUnit = .minutes →
      ∀ t ∈ generateOccurrences medC10 ⟨2024, 1, 1, 0⟩ ⟨2024, 1, 2, 0⟩ 9,
        ∃ k : Nat, t = (DT.mk 2024 1 1 0).toMin + k * (medC10.intervalQty : Int)) ∧
    (medC10.intervalUnit = .hours →
      ∀ t ∈ generateOccurrences medC10 ⟨2024, 1, 1, 0⟩ ⟨2024, 1, 2, 0⟩ 9,
        ∃ k : Nat, t = (DT.mk 2024 1 1 0).toMin +
          k * (60 * (medC10.intervalQty : Int))) ∧
    (medC10.intervalUnit = .days →
      ∀ t ∈ generateOccurrences medC10 ⟨2024, 1, 1, 0⟩ ⟨2024, 1, 2, 0⟩ 9,
        ∃ k : Nat, t = (DT.mk 2024 1 1 0).toMin +
          k * (1440 * (medC10.intervalQty : Int))) ∧
    (medC10.intervalUnit = .weeks →
      ∀ t ∈ generateOccurrences medC10 ⟨2024, 1, 1, 0⟩ ⟨2024, 1, 2, 0⟩ 9,
        ∃ k : Nat, t = (DT.mk 2024 1 1 0).toMin +
          k * (1440 * (7 * (medC10.intervalQty : Int))))  :=
  C10_interval_anchored_to_window medC10 ⟨2024, 1, 1, 0⟩ ⟨2024, 1, 2, 0⟩ 9
    (by decide) rfl (by decide) (fun e he => by cases he) (by decide)
    (by decide)

theorem existsEvent_append (s l : List DoseEvent) (mid : Nat) (t : Int) :
    existsEvent (s ++ l) mid t = (existsEvent s mid t || existsEvent l mid t) := by
  simp [existsEvent, List.any_append]

theorem existsEvent_create_self (mid : Nat) (t : Int) (s : List DoseEvent) :
    existsEvent (createDoseEventIfNotExists mid t s) mid t = true := by
  unfold createDoseEventIfNotExists
  split_ifs with h
  · exact h
  · simp [existsEvent_append, existsEvent]

theorem existsEvent_create_mono {s : List DoseEvent} {mid : Nat} {t : Int}
    (h : existsEvent s mid t = true) (mid2 : Nat) (t2 : Int) :
    existsEvent (createDoseEventIfNotExists mid2 t2 s) mid t = true := by
  unfold createDoseEventIfNotExists
  split_ifs
  · exact h
  · simp [existsEvent_append, h]

theorem create_of_exists {s : List DoseEvent} {mid : Nat} {t : Int}
    (h : existsEvent s mid t = true) :
    createDoseEventIfNotExists mid t s = s := by
  unfold createDoseEventIfNotExists
  simp [h]

theorem existsEvent_matFold_mono (mid : Nat) (occs : List Int)
    {s : List DoseEvent} {mid1 : Nat} {t1 : Int}
    (h : existsEvent s mid1 t1 = true) :
    existsEvent (occs.foldl (fun st t => createDoseEventIfNotExists mid t st) s)
      mid1 t1 = true := by
  induction occs generalizing s with
  | nil => exact h
  | cons a l ih => exact ih (existsEvent_create_mono h mid a)

theorem existsEvent_matFold_all (mid : Nat) (occs : List Int) (s : List DoseEvent) :
    ∀ t ∈ occs,
      existsEvent (occs.foldl (fun st t => createDoseEventIfNotExists mid t st) s)
        mid t = true := by
  induction occs generalizing s with
  | nil => simp
  | cons a l ih =>
    intro t ht
    rw [List.foldl_cons]
    rcases List.mem_cons.mp ht with h | h
    · subst h
      exact existsEvent_matFold_mono mid l (existsEvent_create_self mid t s)
    · exact ih _ t h

theorem matFold_of_all_exists (mid : Nat) (occs : List Int) (s : List DoseEvent)
    (h : ∀ t ∈ occs, existsEvent s mid t = true) :
    occs.foldl (fun st t => createDoseEventIfNotExists mid t st) s = s := by
  induction occs with
  | nil => rfl
  | cons a l ih =>
    rw [List.foldl_cons, create_of_exists (h a (List.mem_cons_self a l))]
    exact ih (fun t ht => h t (List.mem_cons_of_mem a ht))

theorem NoDupKeys_create {s : List DoseEvent} (h : NoDupKeys s)
    (mid : Nat) (t : Int) : NoDupKeys (createDoseEventIfNotExists mid t s) := by
  unfold createDoseEventIfNotExists
  split_ifs with hex
  · exact h
  · unfold NoDupKeys at h ⊢
    rw [List.pairwise_append]
    refine ⟨h, List.pairwise_singleton _ _, ?_⟩
    intro a ha b hb hk
    rcases List.mem_singleton.mp hb with rfl
    have : existsEvent s mid t = true := by
      simp only [existsEvent, List.any_eq_true]
      exact ⟨a, ha, by simp [hk.1, hk.2]⟩
    exact hex this

theorem NoDupKeys_matFold {s : List DoseEvent} (h : NoDupKeys s)
    (mid : Nat) (occs : List Int) :
    NoDupKeys (occs.foldl (fun st t => createDoseEventIfNotExists mid t st) s) := by
  induction occs generalizing s with
  | nil => exact h
  | cons a l ih => exact ih (NoDupKeys_create h mid a)

/-- C2: materialization is idempotent — running it a second time with the
same medication and window against the store the first run produced
changes nothing, and a store satisfying the `(medicationId, scheduledTime)`
uniqueness invariant still satisfies it afterwards (no pair ever appears
twice). -/
theorem C2_materialize_idempotent (med : Medication) (ws we : DT) (fuel : Nat)
    (s : List DoseEvent) (h : NoDupKeys s) :
    materialize med ws we fuel (materialize med ws we fuel s) =
      materialize med ws we fuel s ∧
    NoDupKeys (materialize med ws we fuel s) := by
  unfold materialize
  exact ⟨matFold_of_all_exists _ _ _ (existsEvent_matFold_all _ _ _),
    NoDupKeys_matFold h _ _⟩

/-- C2 witness: idempotence at the concrete daily medication over the
window 2024-01-01 to 2024-01-02, starting from the empty store. -/
theorem C2_materialize_idempotent_witness :
    materialize medC5 ⟨2024, 1, 1, 0⟩ ⟨2024, 1, 2, 0⟩ 5
        (materialize medC5 ⟨2024, 1, 1, 0⟩ ⟨2024, 1, 2, 0⟩ 5 []) =
      materialize medC5 ⟨2024, 1, 1, 0⟩ ⟨2024, 1, 2, 0⟩ 5 [] ∧
    NoDupKeys (materialize medC5 ⟨2024, 1, 1, 0⟩ ⟨2024, 1, 2, 0⟩ 5 []) :=
  C2_materialize_idempotent medC5 ⟨2024, 1, 1, 0⟩ ⟨2024, 1, 2, 0⟩ 5 [] (by decide)

/-- C4 counterexample: a `skipped` (terminal) event is not immutable
under the engine — the snooze handler advances its `scheduledTime` by 15
minutes, because its UPDATE carries no status condition. -/
theorem C4_counterexample :
    snoozeDose [⟨11, 3, 2000, .skipped, none⟩] 11 =
      [⟨11, 3, 2015, .skipped, none⟩] ∧
    (⟨11, 3, 2000, .skipped, none⟩ : DoseEvent).status = .skipped := by
  decide

/-- C4 (amended): materialization never rewrites an existing row — the
store after `materialize` is the old store plus a tail of freshly inserted
rows, each `due` and at a `(medicationId, scheduledTime)` key absent from
the old store.  (Terminal events are, however, not protected from the
snooze handler, which mutates `scheduledTime` regardless of status.) -/
theorem C4_materialize_frame (med : Medication) (ws we : DT) (fuel : Nat)
    (s : List DoseEvent) :
    ∃ tail, materialize med ws we fuel s = s ++ tail ∧
      ∀ e ∈ tail, e.status = .due ∧
        existsEvent s e.medicationId e.scheduledTime = false := by
  unfold materialize
  generalize generateOccurrences med ws we fuel = occs
  induction occs generalizing s with
  | nil => exact ⟨[], by simp, by simp⟩
  | cons a l ih =>
    rw [List.foldl_cons]
    unfold createDoseEventIfNotExists
    split_ifs with hex
    · exact ih s
    · obtain ⟨tail, heq, hprop⟩ := ih (s ++ [⟨0, med.id, a, .due, none⟩])
      refine ⟨⟨0, med.id, a, .due, none⟩ :: tail, by simpa using heq, ?_⟩
      intro e he
      rcases List.mem_cons.mp he with rfl | hmem
      · exact ⟨rfl, by show existsEvent s med.id a = false; simpa using hex⟩
      · obtain ⟨hd, hex2⟩ := hprop e hmem
        rw [existsEvent_append] at hex2
        exact ⟨hd, by simpa using (Bool.or_eq_false_iff.mp hex2).1⟩

/-- C4 witness: the frame property at the concrete daily medication and a
store already holding a terminal event of the same medication. -/
theorem C4_materialize_frame_witness :
    ∃ tail,
      materialize medC5 ⟨2024, 1, 1, 0⟩ ⟨2024, 1, 2, 0⟩ 5
          [⟨30, 6, t0800jan1, .taken, some 3⟩] =
        [⟨30, 6, t0800jan1, .taken, some 3⟩] ++ tail ∧
      ∀ e ∈ tail, e.status = .due ∧
        existsEvent [⟨30, 6, t0800jan1, .taken, some 3⟩]
          e.medicationId e.scheduledTime = false :=
  C4_materialize_frame medC5 ⟨2024, 1, 1, 0⟩ ⟨2024, 1, 2, 0⟩ 5
    [⟨30, 6, t0800jan1, .taken, some 3⟩]

/-- C7: the log route evaluated at scenario C's input (a `due` event of
medication 4 scheduled 2024-01-01T08:00, dose logged at 08:05).  The
claim — and spec scenario C, and the route's own comment "Update dose
event status to 'taken'" — say the event is transitioned to `taken` with
its log reference stamped, and a repeat attempt rejected with
`IllegalTransition`.  The code instead inserts the `medication_log` row,
fails on the syntactically invalid `UPDATE ... LIMIT 1`, answers `500`,
and leaves the event `due` with no `taken_log_id`; a repeated attempt
does the same again.  No `IllegalTransition` error exists anywhere in
the code. -/
theorem C7_log_route_divergence :
    logDose stC7 4 (t0800jan1 + 5) 1 =
      (⟨[⟨1, 4, t0800jan1 + 5⟩],
        [⟨20, 4, t0800jan1, .due, none⟩]⟩, 500) ∧
    logDose (logDose stC7 4 (t0800jan1 + 5) 1).1 4 (t0800jan1 + 5) 2 =
      (⟨[⟨1, 4, t0800jan1 + 5⟩, ⟨2, 4, t0800jan1 + 5⟩],
        [⟨20, 4, t0800jan1, .due, none⟩]⟩, 500) := by
  decide

end PetMeds

